import Mathlib

/-!
Shallow embedding of `scattering/scattering2d/utils.py` (kymatio): the
periodization operator, the modulus operator, the FFT wrapper, the pointwise
complex multiply (`cdgmm`) and the memoized kernel loader, together with
theorems settling the specification claims about them.

Conventions: a 5-D real tensor of shape (batch, channels, height, width, pair)
is a total function on natural indices; shapes are carried separately and
theorems constrain indices to be in bounds.  Machine floats are embedded as
exact rationals (reals where a square root occurs); GPU memory is modelled as
a flat row-major array, exactly as the custom kernels address it.
-/

/-- A 5-D rational tensor (batch, channel, row, column, pair component). -/
def Tensor5 : Type := ℕ → ℕ → ℕ → ℕ → ℕ → ℚ

/-- A possibly-unwritten 5-D tensor: `none` marks a cell the GPU kernel never
wrote (uninitialized memory from `input.new(...)`). -/
def OTensor5 : Type := ℕ → ℕ → ℕ → ℕ → ℕ → Option ℚ

/-- `GET_BLOCKS(N, threads)` from the source: ceiling division used to size
the launch grid. -/
def GET_BLOCKS (N threads : ℕ) : ℕ := (N + threads - 1) / threads

/-- Number of thread indices available along one launch axis: grid extent
(`GET_BLOCKS`) times the block extent. -/
def gridCover (N threads : ℕ) : ℕ := GET_BLOCKS N threads * threads

/-- Read component `p` of the complex pair at flat pair-index `m` of a
contiguous (batch, channel, h, w, 2) tensor, decoding the row-major layout
the periodize kernel uses (`input` cast to a `Dtype2*`). -/
def flatRead (c h w : ℕ) (x : Tensor5) (m p : ℕ) : ℚ :=
  x (m / (h * w) / c) (m / (h * w) % c) (m % (h * w) / w) (m % (h * w) % w) p

/-- `iscomplex` from the source: the trailing (pair) axis has length 2. -/
def iscomplex (lastAxis : ℕ) : Bool := lastAxis == 2

/-- Errors the periodize / modulus wrappers can raise. -/
inductive PErr where
  | typeError : PErr
  | viewError : PErr
deriving DecidableEq, Repr

/-- Portable path of `Periodize.__call__`: view height as
(h/(h/k), h/k) and width as (w/(w/k), w/k) and take the mean over the two
folding axes (`y.mean(4).mean(2)` in the source). -/
def periodizePortable (h w k : ℕ) (x : Tensor5) : Tensor5 :=
  fun b c i j p =>
    (∑ a ∈ Finset.range (h / (h / k)),
        (∑ d ∈ Finset.range (w / (w / k)),
            x b c (a * (h / k) + i) (d * (w / k) + j) p)
          / ((w / (w / k) : ℕ) : ℚ))
      / ((h / (h / k) : ℕ) : ℚ)

/-- Fast path of `Periodize.__call__`: the custom `periodize` CUDA kernel.
A thread `(tx, ty, tz)` exists only inside the launch grid, whose x extent is
sized from the output *height* and y extent from the output *width* (lines
92-94 of the source); the kernel guard compares `tx` against the output
*width* `NW` and `ty` against the output *height* `NH`.  A written cell holds
the sum of the `k'×k'` aliased input pairs divided by `k'²`, where
`k' = w / (w / k)` is the factor the wrapper recomputes (line 90); an
unwritten cell is `none`.  The element count uses the complex layout
(`L = 2`), which the wrapper has already checked on this path. -/
def periodizeFast (b c h w k : ℕ) (x : Tensor5) : OTensor5 :=
  fun bi ci ty tx p =>
    let kk := w / (w / k)
    let NH := h / kk
    let NW := w / kk
    let B := b * c * h * w * 2 / (2 * w * h)
    let tz := bi * c + ci
    if tx < NW ∧ ty < NH ∧ tz < B ∧
        tx < gridCover NH 32 ∧ ty < gridCover NW 32 ∧ tz < gridCover B 1 then
      some ((∑ j2 ∈ Finset.range kk, ∑ i2 ∈ Finset.range kk,
              flatRead c h w x
                (tz * h * w + ty * w + tx + j2 * NH * w + i2 * NW) p)
            / ((kk * kk : ℕ) : ℚ))
    else none

/-- Wrap a fully-written tensor as a possibly-unwritten one. -/
def allWritten (t : Tensor5) : OTensor5 := fun b c i j p => some (t b c i j p)

/-- `Periodize.__call__`: allocate the output, take the portable reshape/mean
path when the JIT is disabled or the input is not device-resident (the view
succeeds exactly when the element counts agree; no complex-pair check is made
on this path), otherwise check `iscomplex` and launch the kernel. -/
def periodizeCall (jit cuda : Bool) (b c h w L k : ℕ) (x : Tensor5) :
    Except PErr OTensor5 :=
  if ¬jit ∨ ¬cuda then
    if b * c * h * w * L =
        b * c * (h / (h / k)) * (h / k) * (w / (w / k)) * (w / k) * 2 then
      .ok (allWritten (periodizePortable h w k x))
    else
      .error .viewError
  else if ¬iscomplex L then
    .error .typeError
  else
    .ok (periodizeFast b c h w k x)

/-- A 5-D real tensor, used for the modulus operator (whose output involves a
square root). -/
def Tensor5R : Type := ℕ → ℕ → ℕ → ℕ → ℕ → ℝ

/-- A possibly-unwritten real tensor. -/
def OTensor5R : Type := ℕ → ℕ → ℕ → ℕ → ℕ → Option ℝ

/-- Read the real scalar at flat scalar-index `m` of a contiguous
(batch, channel, h, w, 2) tensor, as the modulus kernel does (`input` cast
to a `Dtype*`). -/
noncomputable def flatReadS (c h w : ℕ) (x : Tensor5R) (m : ℕ) : ℝ :=
  x (m / 2 / (h * w) / c) (m / 2 / (h * w) % c)
    (m / 2 % (h * w) / w) (m / 2 % (h * w) % w) (m % 2)

/-- Portable path of `Modulus.__call__`: the 2-norm over the trailing axis of
length `L` (`input.norm(p=2, dim=-1, keepdim=True)`), concatenated with a
zero tensor along that axis.  No complex-pair check is made on this path. -/
noncomputable def modulusPortable (L : ℕ) (x : Tensor5R) : Tensor5R :=
  fun b c i j p =>
    if p = 0 then Real.sqrt (∑ q ∈ Finset.range L, (x b c i j q) ^ 2) else 0

/-- Fast path of `Modulus.__call__`: the `abs_complex_value` kernel, one
thread per complex element over a 1-D launch of `GET_BLOCKS(n, 1024)` blocks
of 1024 threads; thread `q` writes `(normf(2, x + 2q), 0)`.  The output cell
at (bi, ci, i, j) is the flat pair-index `((bi*c + ci)*h + i)*w + j`. -/
noncomputable def modulusFast (b c h w : ℕ) (x : Tensor5R) : OTensor5R :=
  fun bi ci i j p =>
    let n := b * c * h * w * 2 / 2
    let q := ((bi * c + ci) * h + i) * w + j
    if q < n ∧ q < gridCover n 1024 then
      if p = 0 then
        some (Real.sqrt ((flatReadS c h w x (2 * q)) ^ 2 +
                         (flatReadS c h w x (2 * q + 1)) ^ 2))
      else if p = 1 then some 0
      else none
    else none

/-- Wrap a fully-written real tensor as a possibly-unwritten one. -/
noncomputable def allWrittenR (t : Tensor5R) : OTensor5R :=
  fun b c i j p => some (t b c i j p)

/-- `Modulus.__call__`: the portable norm path when the JIT is disabled or
the input is not device-resident (no complex-pair check), otherwise allocate
the output, check `iscomplex`, and launch the kernel. -/
noncomputable def modulusCall (jit cuda : Bool) (b c h w L : ℕ)
    (x : Tensor5R) : Except PErr OTensor5R :=
  if ¬jit ∨ ¬cuda then
    .ok (allWrittenR (modulusPortable L x))
  else if ¬iscomplex L then
    .error .typeError
  else
    .ok (modulusFast b c h w x)

/-- A 1-D complex signal of length 4: position, pair component. -/
def FSig : Type := ℕ → ℕ → ℚ

/-- Powers of the imaginary unit as exact rational pairs. -/
def ipow (e : ℕ) : ℚ × ℚ :=
  if e % 4 = 0 then (1, 0)
  else if e % 4 = 1 then (0, 1)
  else if e % 4 = 2 then (-1, 0)
  else (0, -1)

/-- Modelled from the spec: the external unnormalized inverse transform
facility (`torch.ifft`, "All transforms are unnormalized"), instantiated at
spatial size 1×4, where `i = exp(2πi/4)` is a primitive fourth root of unity:
`out[n] = Σ_{m<4} x[m] · i^(n·m)` with complex multiplication expanded on
(real, imaginary) pairs. -/
def torchIfft4 (x : FSig) : FSig :=
  fun n p =>
    if p = 0 then
      ∑ m ∈ Finset.range 4, (x m 0 * (ipow (n * m)).1 - x m 1 * (ipow (n * m)).2)
    else if p = 1 then
      ∑ m ∈ Finset.range 4, (x m 0 * (ipow (n * m)).2 + x m 1 * (ipow (n * m)).1)
    else 0

/-- Modelled from the spec: the external complex-to-real inverse transform
(`torch.irfft`), of which only the real-only output shape matters here:
the real part of the unnormalized inverse transform. -/
def torchIrfft4 (x : FSig) : FSig :=
  fun n p => if p = 0 then torchIfft4 x n 0 else 0

/-- Errors the FFT wrapper can raise. -/
inductive FErr where
  | typeError : FErr
  | contigError : FErr
deriving DecidableEq, Repr

/-- Result of the FFT wrapper: either the empty list `output = []` that the
source initializes and returns unchanged for unrecognized directions, or a
transformed tensor. -/
inductive FftOut where
  | emptyList : FftOut
  | tensor : FSig → FftOut

/-- `Fft.__call__` at spatial size 1×4: force `inverse` for `'C2R'`, check
the complex representation and contiguity, then dispatch on the `direction`
string; both branches of the `'C2C'` dispatch call the inverse transform
(lines 174-177 of the source), and any other direction returns the initial
empty list. -/
def fftCall (isComplex isContig : Bool) (direction : String) (inverse : Bool)
    (x : FSig) : Except FErr FftOut :=
  let inv := if direction = "C2R" then true else inverse
  if ¬isComplex then .error .typeError
  else if ¬isContig then .error .contigError
  else if direction = "C2R" then .ok (.tensor (torchIrfft4 x))
  else if direction = "C2C" then
    if inv then .ok (.tensor (torchIfft4 x)) else .ok (.tensor (torchIfft4 x))
  else .ok .emptyList

/-- The delta signal at position 1: `x[1] = 1`, all other entries `0`. -/
def delta1 : FSig := fun m p => if m = 1 ∧ p = 0 then 1 else 0

/-- A 4-D rational tensor for `cdgmm`'s batch operand: flattened leading
(batch) index, row, column, pair component — exactly the flattening
`A[..., 0].contiguous().view(-1, A.size(-2)*A.size(-3))` performs. -/
def T4 : Type := ℕ → ℕ → ℕ → ℕ → ℚ

/-- A rank-3 rational filter tensor: row, column, pair component. -/
def T3 : Type := ℕ → ℕ → ℕ → ℚ

/-- The view `A[..., 0].contiguous().view(-1, h*w)`: real parts of the batch
operand, indexed by (flattened batch row, flattened spatial column). -/
def viewAr (w : ℕ) (A : T4) : ℕ → ℕ → ℚ := fun r q => A r (q / w) (q % w) 0

/-- The view `A[..., 1].contiguous().view(-1, h*w)`: imaginary parts. -/
def viewAi (w : ℕ) (A : T4) : ℕ → ℕ → ℚ := fun r q => A r (q / w) (q % w) 1

/-- The view `B[..., 0].contiguous().view(h*w)` of the filter's real parts,
already expanded (broadcast) over the batch rows. -/
def viewBr (w : ℕ) (B : T3) : ℕ → ℚ := fun q => B (q / w) (q % w) 0

/-- The view `B[..., 1].contiguous().view(h*w)` of the filter's imaginary
parts, broadcast over the batch rows. -/
def viewBi (w : ℕ) (B : T3) : ℕ → ℚ := fun q => B (q / w) (q % w) 1

/-- Portable path of `cdgmm`: `C[..., 0] = A_r·B_r − A_i·B_i` and
`C[..., 1] = A_r·B_i + A_i·B_r` computed on the flattened views; components
past the complex pair are never written (`C = A.new(A.size())` leaves them
uninitialized; modelled as 0). -/
def cdgmmPortable (w : ℕ) (A : T4) (B : T3) : T4 :=
  fun r y x p =>
    if p = 0 then
      viewAr w A r (y * w + x) * viewBr w B (y * w + x) -
        viewAi w A r (y * w + x) * viewBi w B (y * w + x)
    else if p = 1 then
      viewAr w A r (y * w + x) * viewBi w B (y * w + x) +
        viewAi w A r (y * w + x) * viewBr w B (y * w + x)
    else 0

/-- Shape-and-dtype metadata of a torch tensor operand, as far as `cdgmm`'s
precondition checks inspect it (`type(A)` is modelled by a scalar-type tag). -/
structure TensorMeta where
  shape : List ℕ
  dtype : ℕ
deriving DecidableEq, Repr

/-- Python's `A.size()[-3:]`: the trailing (at most) three axes. -/
def lastThree (l : List ℕ) : List ℕ := l.drop (l.length - 3)

/-- Python's `A.size(-1)`: the trailing axis length (0 for an empty shape,
which the theorems exclude). -/
def lastDim (l : List ℕ) : ℕ := l.getLastD 0

/-- Errors `cdgmm` can raise, in the order its checks appear. -/
inductive CErr where
  | shapeMismatch : CErr
  | typeError : CErr
  | rankError : CErr
  | dtypeError : CErr
deriving DecidableEq, Repr

/-- The precondition checks of `cdgmm`, in source order: trailing-three-axes
shape comparison, `iscomplex` on both operands, filter rank, and operand
type equality. -/
def cdgmmCheck (A B : TensorMeta) : Option CErr :=
  if lastThree A.shape ≠ B.shape then some .shapeMismatch
  else if ¬iscomplex (lastDim A.shape) ∨ ¬iscomplex (lastDim B.shape) then
    some .typeError
  else if B.shape.length ≠ 3 then some .rankError
  else if A.dtype ≠ B.dtype then some .dtypeError
  else none

/-- `cdgmm` (portable path): run all precondition checks before touching the
data, then compute the pointwise complex product. -/
def cdgmm (A B : TensorMeta) (dA : T4) (dB : T3) (w : ℕ) : Except CErr T4 :=
  match cdgmmCheck A B with
  | some e => .error e
  | none => .ok (cdgmmPortable w dA dB)

/-- Association-list lookup with decidable key equality. -/
def afind {α β : Type} [DecidableEq α] : List (α × β) → α → Option β
  | [], _ => none
  | (k, v) :: t, a => if k = a then some v else afind t a

/-- `Template(code).substitute(**kwargs)`: replace each `${key}` placeholder
by its value. -/
def substituteT (tmpl : String) (kwargs : List (String × String)) : String :=
  kwargs.foldl (fun acc kv => acc.replace ("$\x7b" ++ kv.1 ++ "\x7d") kv.2) tmpl

/-- State of the kernel-loading machinery: the `cupy.util.memoize`
per-device cache keyed by the call arguments (name, template, kwargs,
device), the `compile_with_cache` module cache keyed by final source text
and device (modelled from the spec: the external JIT facility compiles a
given source text at most once per device), and the number of compilations
performed so far.  A cached value is the index of the compilation that
produced it. -/
structure KState where
  memo : List ((String × String × List (String × String) × ℕ) × ℕ)
  compiled : List ((String × ℕ) × ℕ)
  count : ℕ
deriving Repr

/-- `load_kernel`: return the memoized handle when the exact argument tuple
was seen before on this device; otherwise substitute the template, reuse the
compiled module for the resulting source text when one exists, else compile
(incrementing the compilation counter), and memoize.  The returned handle is
the identifier of the compilation that produced the module. -/
def load_kernel (st : KState) (name tmpl : String)
    (kwargs : List (String × String)) (dev : ℕ) : KState × ℕ :=
  let key := (name, tmpl, kwargs, dev)
  match afind st.memo key with
  | some hdl => (st, hdl)
  | none =>
    let text := substituteT tmpl kwargs
    match afind st.compiled (text, dev) with
    | some m => ({ st with memo := (key, m) :: st.memo }, m)
    | none =>
      let m := st.count
      ({ memo := (key, m) :: st.memo,
         compiled := ((text, dev), m) :: st.compiled,
         count := st.count + 1 }, m)

/-- Boolean success test for `Except`. -/
def exceptIsOk {ε α : Type} : Except ε α → Bool
  | .ok _ => true
  | .error _ => false

theorem natSplitDiv {m r : ℕ} (z : ℕ) (hr : r < m) : (z * m + r) / m = z := by
  rw [Nat.add_comm, Nat.add_mul_div_right _ _ (Nat.zero_lt_of_lt hr),
    Nat.div_eq_of_lt hr, Nat.zero_add]

theorem natSplitMod {m r : ℕ} (z : ℕ) (hr : r < m) : (z * m + r) % m = r :=
  Nat.mul_add_mod_of_lt hr

theorem fold_index_lt {i a n k : ℕ} (hi : i < n) (ha : a < k) :
    i + a * n < k * n := by
  calc i + a * n < n + a * n := Nat.add_lt_add_right hi _
    _ = (a + 1) * n := by ring
    _ ≤ k * n := Nat.mul_le_mul_right n (Nat.succ_le_of_lt ha)

theorem le_gridCover (n t : ℕ) (ht : 0 < t) : n ≤ gridCover n t := by
  have hdm := Nat.div_add_mod (n + t - 1) t
  have hm : (n + t - 1) % t < t := Nat.mod_lt _ ht
  have h2 : n + t - 1 - (n + t - 1) % t = t * ((n + t - 1) / t) :=
    Nat.sub_eq_of_eq_add hdm.symm
  have h3 : n ≤ n + t - 1 - (n + t - 1) % t := by omega
  unfold gridCover GET_BLOCKS
  calc n ≤ n + t - 1 - (n + t - 1) % t := h3
    _ = t * ((n + t - 1) / t) := h2
    _ = (n + t - 1) / t * t := Nat.mul_comm _ _

theorem flatRead_decode (c h w : ℕ) (x : Tensor5) (bi ci y xw p : ℕ)
    (hci : ci < c) (hy : y < h) (hxw : xw < w) :
    flatRead c h w x ((bi * c + ci) * h * w + (y * w + xw)) p = x bi ci y xw p := by
  have hyx : y * w + xw < h * w := by
    have := fold_index_lt hxw hy
    omega
  have harg : (bi * c + ci) * h * w + (y * w + xw) =
      (bi * c + ci) * (h * w) + (y * w + xw) := by ring
  simp only [flatRead, harg, natSplitDiv _ hyx, natSplitMod _ hyx,
    natSplitDiv _ hci, natSplitMod _ hci, natSplitDiv _ hxw, natSplitMod _ hxw]

/-- C10: for every complex, contiguous input and every direction string other
than `'C2C'` and `'C2R'`, the FFT wrapper returns the initial empty list with
no error and no transform issued — an unrecognized mode is silently a no-op. -/
theorem fft_unknown_direction_noop (direction : String) (inverse : Bool)
    (x : FSig) (h1 : direction ≠ "C2C") (h2 : direction ≠ "C2R") :
    fftCall true true direction inverse x = .ok .emptyList := by
  simp [fftCall, h1, h2]

theorem fft_unknown_direction_noop_witness :
    fftCall true true "R2C" false delta1 = .ok .emptyList :=
  fft_unknown_direction_noop "R2C" false delta1 (by decide) (by decide)

/-- C2: the `'C2C'` dispatch calls the inverse transform in both branches
(the forward branch is a slip), so a forward-then-inverse round trip is the
inverse transform applied twice.  On the delta signal at index 1 this yields
0 at index 1 while `(height·width)·x` is 4 there: the round-trip scaling
claimed by the spec fails. -/
theorem fft_forward_branch_is_inverse :
    (∀ x : FSig, fftCall true true "C2C" false x = fftCall true true "C2C" true x)
    ∧ torchIfft4 (torchIfft4 delta1) 1 0 = 0
    ∧ (4 : ℚ) * delta1 1 0 = 4 := by
  refine ⟨fun x => rfl, ?_, ?_⟩
  · norm_num [torchIfft4, delta1, ipow, Finset.sum_range_succ]
  · norm_num [delta1]

/-- C3: on the portable path, `cdgmm` computes the standard complex product
per flattened batch row and spatial position, with the rank-3 filter
broadcast over the batch rows; a filter with real part 1 and imaginary part
0 is the identity, and the zero filter yields zero. -/
theorem cdgmm_pointwise (wd : ℕ) (A : T4) (B : T3) (r y x : ℕ) (hx : x < wd) :
    cdgmmPortable wd A B r y x 0 = A r y x 0 * B y x 0 - A r y x 1 * B y x 1
    ∧ cdgmmPortable wd A B r y x 1 = A r y x 0 * B y x 1 + A r y x 1 * B y x 0
    ∧ ((∀ i j, B i j 0 = 1 ∧ B i j 1 = 0) → ∀ p, p < 2 →
        cdgmmPortable wd A B r y x p = A r y x p)
    ∧ ((∀ i j p', B i j p' = 0) → ∀ p, p < 2 →
        cdgmmPortable wd A B r y x p = 0) := by
  have hd : (y * wd + x) / wd = y := natSplitDiv y hx
  have hm : (y * wd + x) % wd = x := natSplitMod y hx
  have h0 : cdgmmPortable wd A B r y x 0 =
      A r y x 0 * B y x 0 - A r y x 1 * B y x 1 := by
    simp [cdgmmPortable, viewAr, viewAi, viewBr, viewBi, hd, hm]
  have h1 : cdgmmPortable wd A B r y x 1 =
      A r y x 0 * B y x 1 + A r y x 1 * B y x 0 := by
    simp [cdgmmPortable, viewAr, viewAi, viewBr, viewBi, hd, hm]
  refine ⟨h0, h1, ?_, ?_⟩
  · intro hB p hp
    interval_cases p
    · rw [h0, (hB y x).1, (hB y x).2]; ring
    · rw [h1, (hB y x).1, (hB y x).2]; ring
  · intro hB p hp
    interval_cases p
    · rw [h0, hB y x 0, hB y x 1]; ring
    · rw [h1, hB y x 0, hB y x 1]; ring

/-- A concrete batch tensor used by witnesses. -/
def wA : T4 := fun r y x p => (r + 2 * y + 3 * x + 5 * p + 1 : ℚ)

/-- A concrete filter tensor used by witnesses. -/
def wB : T3 := fun y x p => (2 * y + 7 * x + 11 * p + 2 : ℚ)

theorem cdgmm_pointwise_witness :
    cdgmmPortable 4 wA wB 0 1 2 0 = wA 0 1 2 0 * wB 1 2 0 - wA 0 1 2 1 * wB 1 2 1
    ∧ cdgmmPortable 4 wA wB 0 1 2 1 = wA 0 1 2 0 * wB 1 2 1 + wA 0 1 2 1 * wB 1 2 0
    ∧ ((∀ i j, wB i j 0 = 1 ∧ wB i j 1 = 0) → ∀ p, p < 2 →
        cdgmmPortable 4 wA wB 0 1 2 p = wA 0 1 2 p)
    ∧ ((∀ i j p', wB i j p' = 0) → ∀ p, p < 2 →
        cdgmmPortable 4 wA wB 0 1 2 p = 0) :=
  cdgmm_pointwise 4 wA wB 0 1 2 (by decide)

theorem cdgmmCheck_none_iff (A B : TensorMeta) :
    cdgmmCheck A B = none ↔
      (lastThree A.shape = B.shape ∧ lastDim A.shape = 2 ∧ lastDim B.shape = 2 ∧
       B.shape.length = 3 ∧ A.dtype = B.dtype) := by
  unfold cdgmmCheck
  split_ifs with h1 h2 h3 h4 <;> simp_all [iscomplex] <;> tauto

/-- C7: `cdgmm` raises an error before any computation exactly when the
batch operand's trailing three axes differ from the filter's shape, the
filter's rank is not 3, the scalar types differ, or either operand's
trailing axis is not 2; with none of these, no precondition error occurs. -/
theorem cdgmm_error_iff (A B : TensorMeta) (dA : T4) (dB : T3) (wd : ℕ)
    (_hA : A.shape ≠ []) (_hB : B.shape ≠ []) :
    (∃ e, cdgmm A B dA dB wd = .error e) ↔
      (lastThree A.shape ≠ B.shape ∨ B.shape.length ≠ 3 ∨ A.dtype ≠ B.dtype ∨
       lastDim A.shape ≠ 2 ∨ lastDim B.shape ≠ 2) := by
  constructor
  · rintro ⟨e, he⟩
    by_contra hcon
    push_neg at hcon
    obtain ⟨h1, h2, h3, h4, h5⟩ := hcon
    have hnone : cdgmmCheck A B = none :=
      (cdgmmCheck_none_iff A B).mpr ⟨h1, h4, h5, h2, h3⟩
    simp [cdgmm, hnone] at he
  · intro hdis
    rcases hck : cdgmmCheck A B with _ | e
    · exfalso
      obtain ⟨h1, h4, h5, h2, h3⟩ := (cdgmmCheck_none_iff A B).mp hck
      tauto
    · exact ⟨e, by simp [cdgmm, hck]⟩

theorem cdgmm_error_iff_witness :
    ((∃ e, cdgmm ⟨[5, 4, 4, 2], 0⟩ ⟨[4, 4, 2], 0⟩ wA wB 4 = .error e) ↔
      (lastThree [5, 4, 4, 2] ≠ [4, 4, 2] ∨ ([4, 4, 2] : List ℕ).length ≠ 3 ∨
       (0 : ℕ) ≠ 0 ∨ lastDim [5, 4, 4, 2] ≠ 2 ∨ lastDim [4, 4, 2] ≠ 2)) :=
  cdgmm_error_iff ⟨[5, 4, 4, 2], 0⟩ ⟨[4, 4, 2], 0⟩ wA wB 4 (by decide) (by decide)

theorem load_kernel_idem (st : KState) (n t : String)
    (k : List (String × String)) (d : ℕ) :
    load_kernel (load_kernel st n t k d).1 n t k d = load_kernel st n t k d := by
  unfold load_kernel
  rcases hm : afind st.memo (n, t, k, d) with _ | hdl
  · rcases hc : afind st.compiled (substituteT t k, d) with _ | m
    · simp [hm, hc, afind]
    · simp [hm, hc, afind]
  · simp [hm]

theorem load_kernel_count_le (st : KState) (n t : String)
    (k : List (String × String)) (d : ℕ) :
    (load_kernel st n t k d).1.count ≤ st.count + 1 := by
  unfold load_kernel
  rcases hm : afind st.memo (n, t, k, d) with _ | hdl
  · rcases hc : afind st.compiled (substituteT t k, d) with _ | m <;>
      simp [hm, hc]
  · simp [hm]

theorem load_kernel_post (st : KState) (n t : String)
    (k : List (String × String)) (d : ℕ) :
    (load_kernel st n t k d).1.count = st.count ∨
      (afind (load_kernel st n t k d).1.compiled
        (substituteT t k, d)).isSome = true := by
  unfold load_kernel
  rcases hm : afind st.memo (n, t, k, d) with _ | hdl
  · rcases hc : afind st.compiled (substituteT t k, d) with _ | m
    · right; simp [hm, hc, afind]
    · left; simp [hm, hc]
  · left; simp [hm]

theorem load_kernel_compiled_hit (st : KState) (n t : String)
    (k : List (String × String)) (d : ℕ)
    (h : (afind st.compiled (substituteT t k, d)).isSome = true) :
    (load_kernel st n t k d).1.count = st.count := by
  unfold load_kernel
  rcases hm : afind st.memo (n, t, k, d) with _ | hdl
  · rcases hc : afind st.compiled (substituteT t k, d) with _ | m
    · rw [hc] at h; simp at h
    · simp [hm, hc]
  · simp [hm]

/-- C9: a second `load_kernel` request with the same name, template,
parameters and device returns the same handle with no further compilation,
and any two requests whose substituted final source text is identical share
one compilation: the compilation counter rises by at most one over both. -/
theorem load_kernel_single_compilation (st : KState) (n1 t1 n2 t2 : String)
    (k1 k2 : List (String × String)) (d : ℕ)
    (hsub : substituteT t1 k1 = substituteT t2 k2) :
    (load_kernel (load_kernel st n1 t1 k1 d).1 n1 t1 k1 d).2 =
        (load_kernel st n1 t1 k1 d).2
    ∧ (load_kernel (load_kernel st n1 t1 k1 d).1 n1 t1 k1 d).1.count =
        (load_kernel st n1 t1 k1 d).1.count
    ∧ (load_kernel (load_kernel st n1 t1 k1 d).1 n2 t2 k2 d).1.count ≤
        st.count + 1 := by
  refine ⟨by rw [load_kernel_idem], by rw [load_kernel_idem], ?_⟩
  rcases load_kernel_post st n1 t1 k1 d with hcnt | hcomp
  · have h1 := load_kernel_count_le (load_kernel st n1 t1 k1 d).1 n2 t2 k2 d
    omega
  · have h2 : (load_kernel (load_kernel st n1 t1 k1 d).1 n2 t2 k2 d).1.count =
        (load_kernel st n1 t1 k1 d).1.count := by
      apply load_kernel_compiled_hit
      rw [← hsub]; exact hcomp
    have h3 := load_kernel_count_le st n1 t1 k1 d
    omega

theorem load_kernel_single_compilation_witness :
    (load_kernel (load_kernel ⟨[], [], 0⟩ "periodize" "k=${k}" [("k", "2")] 0).1
        "periodize" "k=${k}" [("k", "2")] 0).2 =
      (load_kernel ⟨[], [], 0⟩ "periodize" "k=${k}" [("k", "2")] 0).2
    ∧ (load_kernel (load_kernel ⟨[], [], 0⟩ "periodize" "k=${k}" [("k", "2")] 0).1
        "periodize" "k=${k}" [("k", "2")] 0).1.count =
      (load_kernel ⟨[], [], 0⟩ "periodize" "k=${k}" [("k", "2")] 0).1.count
    ∧ (load_kernel (load_kernel ⟨[], [], 0⟩ "periodize" "k=${k}" [("k", "2")] 0).1
        "abs_complex_value" "k=${k}" [("k", "2")] 0).1.count ≤ 0 + 1 :=
  load_kernel_single_compilation ⟨[], [], 0⟩ "periodize" "k=${k}"
    "abs_complex_value" "k=${k}" [("k", "2")] [("k", "2")] 0 rfl

/-- The constant-1 rational test tensor. -/
def xQone : Tensor5 := fun _ _ _ _ _ => 1

/-- The constant-3 rational test tensor. -/
def xQ3 : Tensor5 := fun _ _ _ _ _ => 3

/-- The constant-1 real test tensor. -/
noncomputable def xRone : Tensor5R := fun _ _ _ _ _ => 1

/-- C5 counterexample: with the JIT disabled, `modulus` on an input whose
pair axis has length 3 raises no error at all — the portable path computes
the trailing-axis norm with no type check, contradicting the claim that a
type error is raised on every code path. -/
theorem modulus_portable_no_typecheck :
    exceptIsOk (modulusCall false true 1 1 1 1 3 xRone) = true := rfl

/-- C5 amended: on the fast (JIT + device) path, `periodize` and `modulus`
raise a type error before launching the kernel whenever the pair axis is not
2; the portable paths perform no type check — portable `modulus` silently
returns the trailing-axis norm for any pair-axis length, and portable
`periodize` (with k dividing both spatial extents and nonzero sizes) fails
with a reshape error, not a type error. -/
theorem typecheck_fast_path_only (jit cuda : Bool) (b c h w L k : ℕ)
    (x : Tensor5) (xr : Tensor5R) (hL : L ≠ 2)
    (hb : 0 < b) (hc : 0 < c) (hh : 0 < h) (hw : 0 < w)
    (hkh : k ∣ h) (hkw : k ∣ w) :
    periodizeCall true true b c h w L k x = .error .typeError
    ∧ modulusCall true true b c h w L xr = .error .typeError
    ∧ (¬(jit = true ∧ cuda = true) →
        modulusCall jit cuda b c h w L xr =
          .ok (allWrittenR (modulusPortable L xr))
        ∧ periodizeCall jit cuda b c h w L k x = .error .viewError) := by
  have htot : b * c * h * w * L ≠
      b * c * (h / (h / k)) * (h / k) * (w / (w / k)) * (w / k) * 2 := by
    rw [Nat.div_div_self hkh hh.ne', Nat.div_div_self hkw hw.ne']
    have h1 : k * (h / k) = h := Nat.mul_div_cancel' hkh
    have h2 : k * (w / k) = w := Nat.mul_div_cancel' hkw
    intro heq
    apply hL
    have hpos : 0 < b * c * h * w := by positivity
    have hmul : (b * c * h * w) * L = (b * c * h * w) * 2 := by
      calc (b * c * h * w) * L = b * c * h * w * L := by ring
        _ = b * c * k * (h / k) * k * (w / k) * 2 := heq
        _ = (b * c) * ((k * (h / k)) * (k * (w / k))) * 2 := by ring
        _ = (b * c) * (h * w) * 2 := by rw [h1, h2]
        _ = (b * c * h * w) * 2 := by ring
    exact Nat.eq_of_mul_eq_mul_left hpos hmul
  refine ⟨by simp [periodizeCall, iscomplex, hL], by simp [modulusCall, iscomplex, hL], ?_⟩
  intro hjc
  have hor : ¬(jit = true) ∨ ¬(cuda = true) := by
    cases jit <;> cases cuda <;> simp_all
  constructor
  · unfold modulusCall
    rw [if_pos hor]
  · unfold periodizeCall
    rw [if_pos hor, if_neg htot]

theorem typecheck_fast_path_only_witness :
    periodizeCall true true 1 1 2 2 3 2 xQone = .error .typeError
    ∧ modulusCall true true 1 1 2 2 3 xRone = .error .typeError
    ∧ (¬(false = true ∧ true = true) →
        modulusCall false true 1 1 2 2 3 xRone =
          .ok (allWrittenR (modulusPortable 3 xRone))
        ∧ periodizeCall false true 1 1 2 2 3 2 xQone = .error .viewError) :=
  typecheck_fast_path_only false true 1 1 2 2 3 2 xQone xRone (by decide)
    (by decide) (by decide) (by decide) (by decide) (by decide) (by decide)

/-- C8 counterexample: `periodize` with k = 4 on a 1×1×6×6×2 input (6 is not
divisible by 4) raises no error on the portable path — the reshape happens to
have matching element counts (6/(6/4) = 6, 6/4 = 1) and the call silently
returns the mean over the truncated folds, contradicting the claim that a
shape error is surfaced before computation. -/
theorem periodize_nondivisible_no_error :
    exceptIsOk (periodizeCall false true 1 1 6 6 2 4 xQone) = true
    ∧ periodizePortable 6 6 4 xQone 0 0 0 0 0 = 1 := by
  refine ⟨rfl, ?_⟩
  simp [periodizePortable, xQone, Finset.sum_const, Finset.card_range]

/-- C8 amended: `periodize` performs no divisibility check.  The portable
path raises its (reshape) error exactly when the view's element counts
disagree — a condition that non-divisible factors can satisfy, in which case
means over floor-truncated folds are returned without error — and the fast
path raises nothing for any complex input. -/
theorem periodize_no_divisibility_check (b c h w L k : ℕ) (x : Tensor5)
    (cuda : Bool) :
    (periodizeCall false cuda b c h w L k x = .error .viewError ↔
        b * c * h * w * L ≠
          b * c * (h / (h / k)) * (h / k) * (w / (w / k)) * (w / k) * 2)
    ∧ (L = 2 → periodizeCall true true b c h w L k x =
        .ok (periodizeFast b c h w k x)) := by
  constructor
  · unfold periodizeCall
    have hor : ¬(false = true) ∨ ¬(cuda = true) := by left; simp
    rw [if_pos hor]
    split_ifs with ht
    · simp [ht]
    · simp [ht]
  · intro hL
    subst hL
    rfl

theorem periodize_no_divisibility_check_witness :
    ((periodizeCall false true 1 1 6 6 2 4 xQone = .error .viewError ↔
        1 * 1 * 6 * 6 * 2 ≠
          1 * 1 * (6 / (6 / 4)) * (6 / 4) * (6 / (6 / 4)) * (6 / 4) * 2)
    ∧ (2 = 2 → periodizeCall true true 1 1 6 6 2 4 xQone =
        .ok (periodizeFast 1 1 6 6 4 xQone))) :=
  periodize_no_divisibility_check 1 1 6 6 2 4 xQone true

/-- C1 (code bug): on a 1×1×2×66×2 input with k = 2 the fast path's launch
grid, whose x extent is sized from the output height (1 row → 32 thread
columns) while the thread x index spans the 33 output columns, never writes
output column 32; the portable path's aliased mean at that cell is well
defined (1 for the constant-1 input).  The claim that every fast-path output
element equals the aliased mean therefore fails on the code as written. -/
theorem periodize_fast_unwritten_cell :
    periodizeCall true true 1 1 2 66 2 2 xQone =
        .ok (periodizeFast 1 1 2 66 2 xQone)
    ∧ periodizeFast 1 1 2 66 2 xQone 0 0 0 32 0 = none
    ∧ periodizePortable 2 66 2 xQone 0 0 0 32 0 = 1 := by
  refine ⟨rfl, by decide, ?_⟩
  simp [periodizePortable, xQone, Finset.sum_const, Finset.card_range]

/-- C6 counterexample: the portable and fast periodization paths do not
agree element-wise on all valid inputs with a dividing factor — on a
1×1×2×66×2 constant-3 input with k = 2 the fast path leaves output column 32
unwritten while the portable path returns 3 there. -/
theorem periodize_paths_disagree_uncovered :
    periodizeFast 1 1 2 66 2 xQ3 0 0 0 32 0 = none
    ∧ periodizePortable 2 66 2 xQ3 0 0 0 32 0 = 3 := by
  refine ⟨by decide, ?_⟩
  simp [periodizePortable, xQ3, Finset.sum_const, Finset.card_range]

/-- C6 amended: for every complex input and factor k dividing both spatial
extents, the portable and fast periodization paths agree exactly (over exact
arithmetic) at every output cell the launch grid covers — the cells with
`j < 32·⌈(h/k)/32⌉` and `i < 32·⌈(w/k)/32⌉`; with the grid extents swapped as
in the source this covers everything exactly when each output extent fits
the cover computed from the other (in particular for square inputs). -/
theorem periodize_paths_agree (b c h w k : ℕ) (x : Tensor5)
    (hkh : k ∣ h) (hkw : k ∣ w) (hh : 0 < h) (hw : 0 < w) (_hc : 0 < c)
    (bi ci i j p : ℕ) (hbi : bi < b) (hci : ci < c)
    (hi : i < h / k) (hj : j < w / k)
    (hcx : j < gridCover (h / k) 32) (hcy : i < gridCover (w / k) 32) :
    periodizeFast b c h w k x bi ci i j p =
      some (periodizePortable h w k x bi ci i j p) := by
  have hkk : w / (w / k) = k := Nat.div_div_self hkw hw.ne'
  have hhh : h / (h / k) = k := Nat.div_div_self hkh hh.ne'
  have hmh : k * (h / k) = h := Nat.mul_div_cancel' hkh
  have hmw : k * (w / k) = w := Nat.mul_div_cancel' hkw
  have hB : b * c * h * w * 2 / (2 * w * h) = b * c := by
    rw [show b * c * h * w * 2 = b * c * (2 * w * h) by ring]
    exact Nat.mul_div_cancel _ (by positivity)
  have htz : bi * c + ci < b * c := by
    have h5 := fold_index_lt hci hbi
    omega
  have hgz : gridCover (b * c) 1 = b * c := by
    simp [gridCover, GET_BLOCKS]
  simp only [periodizeFast, periodizePortable]
  rw [hkk, hhh, hB, hgz,
    if_pos (show j < w / k ∧ i < h / k ∧ bi * c + ci < b * c ∧
      j < gridCover (h / k) 32 ∧ i < gridCover (w / k) 32 ∧
      bi * c + ci < b * c from ⟨hj, hi, htz, hcx, hcy, htz⟩)]
  refine congrArg some ?_
  have hfast : (∑ j2 ∈ Finset.range k, ∑ i2 ∈ Finset.range k,
      flatRead c h w x
        ((bi * c + ci) * h * w + i * w + j + j2 * (h / k) * w + i2 * (w / k)) p)
      = ∑ j2 ∈ Finset.range k, ∑ i2 ∈ Finset.range k,
          x bi ci (j2 * (h / k) + i) (i2 * (w / k) + j) p := by
    refine Finset.sum_congr rfl fun j2 hj2 => Finset.sum_congr rfl fun i2 hi2 => ?_
    have hj2k : j2 < k := Finset.mem_range.mp hj2
    have hi2k : i2 < k := Finset.mem_range.mp hi2
    have hrow : i + j2 * (h / k) < h := by
      have h5 := fold_index_lt hi hj2k
      rwa [hmh] at h5
    have hcol : j + i2 * (w / k) < w := by
      have h5 := fold_index_lt hj hi2k
      rwa [hmw] at h5
    have haddr : (bi * c + ci) * h * w + i * w + j + j2 * (h / k) * w + i2 * (w / k)
        = (bi * c + ci) * h * w + ((i + j2 * (h / k)) * w + (j + i2 * (w / k))) := by
      ring
    rw [haddr, flatRead_decode c h w x bi ci _ _ p hci hrow hcol,
      Nat.add_comm i _, Nat.add_comm j _]
  rw [hfast, ← Finset.sum_div, div_div]
  push_cast
  rfl

theorem periodize_paths_agree_witness :
    periodizeFast 1 1 2 2 2 xQone 0 0 0 0 0 =
      some (periodizePortable 2 2 2 xQone 0 0 0 0 0) :=
  periodize_paths_agree 1 1 2 2 2 xQone (by decide) (by decide) (by decide)
    (by decide) (by decide) 0 0 0 0 0 (by decide) (by decide) (by decide)
    (by decide) (by decide) (by decide)

theorem flatReadS_decode (c h w : ℕ) (x : Tensor5R) (bi ci y xw pc : ℕ)
    (hci : ci < c) (hy : y < h) (hxw : xw < w) (hpc : pc < 2) :
    flatReadS c h w x (2 * (((bi * c + ci) * h + y) * w + xw) + pc) =
      x bi ci y xw pc := by
  have hq : (2 * (((bi * c + ci) * h + y) * w + xw) + pc) / 2 =
      ((bi * c + ci) * h + y) * w + xw := by
    rw [Nat.mul_comm 2 _]
    exact natSplitDiv _ hpc
  have hqm : (2 * (((bi * c + ci) * h + y) * w + xw) + pc) % 2 = pc := by
    rw [Nat.mul_comm 2 _]
    exact natSplitMod _ hpc
  have hyx : y * w + xw < h * w := by
    have h5 := fold_index_lt hxw hy
    omega
  have hq2 : ((bi * c + ci) * h + y) * w + xw =
      (bi * c + ci) * (h * w) + (y * w + xw) := by ring
  simp only [flatReadS]
  rw [hq, hqm, hq2, natSplitDiv _ hyx, natSplitMod _ hyx,
    natSplitDiv _ hci, natSplitMod _ hci, natSplitDiv _ hxw, natSplitMod _ hxw]

/-- C4: for every complex input (pair axis of length 2) and every in-bounds
cell, the modulus output's real component is sqrt(re² + im²) and its
imaginary component is exactly zero, on the portable path and on the fast
path (whose 1-D launch grid always covers every element); the wrapper
dispatches to the kernel on the JIT + device path and to the portable norm
otherwise. -/
theorem modulus_correct (b c h w : ℕ) (x : Tensor5R) (bi ci i j : ℕ)
    (hbi : bi < b) (hci : ci < c) (hi : i < h) (hj : j < w) :
    modulusPortable 2 x bi ci i j 0 =
        Real.sqrt ((x bi ci i j 0) ^ 2 + (x bi ci i j 1) ^ 2)
    ∧ modulusPortable 2 x bi ci i j 1 = 0
    ∧ modulusFast b c h w x bi ci i j 0 =
        some (Real.sqrt ((x bi ci i j 0) ^ 2 + (x bi ci i j 1) ^ 2))
    ∧ modulusFast b c h w x bi ci i j 1 = some 0
    ∧ modulusCall true true b c h w 2 x = .ok (modulusFast b c h w x)
    ∧ (∀ jit cuda : Bool, ¬(jit = true ∧ cuda = true) →
        modulusCall jit cuda b c h w 2 x =
          .ok (allWrittenR (modulusPortable 2 x))) := by
  have hn : b * c * h * w * 2 / 2 = b * c * h * w :=
    Nat.mul_div_cancel _ (by norm_num)
  have h1 : bi * c + ci < b * c := by
    have h5 := fold_index_lt hci hbi
    omega
  have h2 : (bi * c + ci) * h + i < b * c * h := by
    have h5 := fold_index_lt hi h1
    omega
  have h3 : ((bi * c + ci) * h + i) * w + j < b * c * h * w := by
    have h5 := fold_index_lt hj h2
    omega
  have hcov : ((bi * c + ci) * h + i) * w + j < gridCover (b * c * h * w) 1024 :=
    lt_of_lt_of_le h3 (le_gridCover _ _ (by norm_num))
  have hd0 : flatReadS c h w x (2 * (((bi * c + ci) * h + i) * w + j)) =
      x bi ci i j 0 := by
    have h5 := flatReadS_decode c h w x bi ci i j 0 hci hi hj (by norm_num)
    simpa using h5
  have hd1 := flatReadS_decode c h w x bi ci i j 1 hci hi hj (by norm_num)
  refine ⟨?_, ?_, ?_, ?_, rfl, ?_⟩
  · simp [modulusPortable, Finset.sum_range_succ]
  · simp [modulusPortable]
  · simp only [modulusFast, hn]
    rw [if_pos ⟨h3, hcov⟩]
    simp [hd0, hd1]
  · simp only [modulusFast, hn]
    rw [if_pos ⟨h3, hcov⟩]
    norm_num
  · intro jit cuda hjc
    have hor : ¬(jit = true) ∨ ¬(cuda = true) := by
      cases jit <;> cases cuda <;> simp_all
    unfold modulusCall
    rw [if_pos hor]

/-- The (3, 4) complex test tensor. -/
noncomputable def x34 : Tensor5R := fun _ _ _ _ p => if p = 0 then 3 else 4

theorem modulus_correct_witness :
    (modulusPortable 2 x34 0 0 0 0 0 =
        Real.sqrt ((x34 0 0 0 0 0) ^ 2 + (x34 0 0 0 0 1) ^ 2)
    ∧ modulusPortable 2 x34 0 0 0 0 1 = 0
    ∧ modulusFast 1 1 1 1 x34 0 0 0 0 0 =
        some (Real.sqrt ((x34 0 0 0 0 0) ^ 2 + (x34 0 0 0 0 1) ^ 2))
    ∧ modulusFast 1 1 1 1 x34 0 0 0 0 1 = some 0
    ∧ modulusCall true true 1 1 1 1 2 x34 = .ok (modulusFast 1 1 1 1 x34)
    ∧ (∀ jit cuda : Bool, ¬(jit = true ∧ cuda = true) →
        modulusCall jit cuda 1 1 1 1 2 x34 =
          .ok (allWrittenR (modulusPortable 2 x34))))
    ∧ Real.sqrt ((x34 0 0 0 0 0) ^ 2 + (x34 0 0 0 0 1) ^ 2) = 5 := by
  refine ⟨modulus_correct 1 1 1 1 x34 0 0 0 0 (by decide) (by decide)
    (by decide) (by decide), ?_⟩
  have h5 : (x34 0 0 0 0 0) ^ 2 + (x34 0 0 0 0 1) ^ 2 = (5 : ℝ) ^ 2 := by
    norm_num [x34]
  rw [h5, Real.sqrt_sq (by norm_num : (0 : ℝ) ≤ 5)]
